import Mathlib

/-!
Verification of the multi-device parameter-synchronization core and the
prefetching data layer of this repository (caffe, parallel-training fork).

The embedding follows two source files:
- include/caffe/parallel.hpp : Params, GPUParams, DevicePair, P2PSync
  (the header declares the members; method bodies live in parallel.cpp,
  which is not part of the excerpt, so those are modelled from the spec);
- src/caffe/layers/base_data_layer.cpp : BaseDataLayer::LayerSetUp,
  BasePrefetchingDataLayer::{CreatePrefetchThread, JoinPrefetchThread,
  InternalThreadEntry, Forward_cpu}.

Scalars (Dtype) are modelled as integers; device identifiers as integers
(C++ int); buffers as lists of integers, or as functions from index to
integer where only element-wise content matters.
-/

namespace Caffe

/-- Embedding of `Params` (include/caffe/parallel.hpp, lines 23-45):
a flat parameter container with a fixed buffer size `size_`, a parameter
buffer `data_` and a gradient buffer `diff_`. -/
structure Params where
  size : Nat
  data : List Int
  diff : List Int
deriving DecidableEq, Repr

/-- Modelled from the spec: the constructor body
`Params::Params(const Solver&)` lives in parallel.cpp, absent from the
excerpt. Per section 4.1, construction computes `size` by summing the
element counts of every learnable parameter tensor of the model graph and
allocates the two flat buffers of that size. -/
def Params.ofCounts (counts : List Nat) : Params :=
  { size := counts.sum
    data := List.replicate counts.sum 0
    diff := List.replicate counts.sum 0 }

/-- Modelled from the spec: `GPUParams::GPUParams(const Solver&, int)` in
parallel.cpp is absent from the excerpt. Per section 3 and 4.1,
construction bulk-copies the root replica's current `parameters` values
into the new device-resident buffer and zero-initializes `gradients`. -/
def GPUParams.init (root : Params) : Params :=
  { size := root.size
    data := root.data
    diff := List.replicate root.size 0 }

/-- Modelled from the spec: gradient accumulation used by the
reduce phase of section 4.3 (a child's combined gradient is added
element-wise into the local gradient buffer); the body is in
parallel.cpp, absent from the excerpt. -/
def accumulateDiff (p : Params) (g : List Int) : Params :=
  { p with diff := p.diff.zipWith (fun a b => a + b) g }

/-- State of a direct child as seen by its parent worker: its
device-resident parameter container and whether the parent has signalled
it to resume its blocked `before_iteration` call. -/
structure ChildState where
  params : Params
  signaled : Bool
deriving DecidableEq, Repr

/-- Modelled from the spec: `P2PSync::finish_iteration` is only declared
in parallel.hpp (line 102); its body is in parallel.cpp, absent from the
excerpt. Per section 4.3, it bulk-copies the just-updated `parameters`
buffer down to every direct child's `parameters` buffer, then signals
each child so its blocked `before_iteration` call may resume. -/
def finish_iteration (parentParams : Params) (children : List ChildState) :
    List ChildState :=
  children.map fun c => ⟨{ c.params with data := parentParams.data }, true⟩

end Caffe

namespace Caffe

/-- Embedding of `DevicePair` (include/caffe/parallel.hpp, lines 64-77):
a parent/child pair of device identifiers. -/
structure DevicePair where
  parent : Int
  device : Int
deriving DecidableEq, Repr

/-- One level of the halving pass of the pairing algorithm: adjacent
devices are paired, the first of each pair becomes the parent and
survives to the next level, the second becomes its child and is removed;
an odd trailing device is carried over unpaired. Returns the pairs
produced at this level together with the surviving devices. -/
def pairLevel : List Int → List DevicePair × List Int
  | [] => ([], [])
  | [d] => ([], [d])
  | a :: b :: rest =>
      let r := pairLevel rest
      (⟨a, b⟩ :: r.1, a :: r.2)

theorem pairLevel_fst_length (ds : List Int) :
    (pairLevel ds).1.length = ds.length / 2 := by
  induction ds using pairLevel.induct with
  | case1 => simp [pairLevel]
  | case2 d => simp [pairLevel]
  | case3 a b rest ih => simp [pairLevel, ih]; omega

theorem pairLevel_snd_length (ds : List Int) :
    (pairLevel ds).2.length = (ds.length + 1) / 2 := by
  induction ds using pairLevel.induct with
  | case1 => simp [pairLevel]
  | case2 d => simp [pairLevel]
  | case3 a b rest ih => simp [pairLevel, ih]; omega

/-- Modelled from the spec: `DevicePair::compute` is declared in
parallel.hpp (line 76) but defined in parallel.cpp, absent from the
excerpt. Per section 4.2, the device list is iteratively halved: at each
level devices are paired by adjacency in the current ordering, the first
of each pair becomes parent, the second becomes its child and is removed
from the next level; an odd device is carried over; the process repeats
until one device (the root) remains. -/
def DevicePair.compute (ds : List Int) : List DevicePair :=
  if _h : ds.length ≤ 1 then []
  else
    (pairLevel ds).1 ++ DevicePair.compute (pairLevel ds).2
termination_by ds.length
decreasing_by
  rw [pairLevel_snd_length]
  omega

/-- `ReachesRoot pairs root d` means device `d` is connected to `root`
through a chain of child-to-parent edges of `pairs`. -/
inductive ReachesRoot (pairs : List DevicePair) (root : Int) : Int → Prop where
  | refl : ReachesRoot pairs root root
  | step {p c : Int} : ReachesRoot pairs root p → DevicePair.mk p c ∈ pairs →
      ReachesRoot pairs root c

end Caffe

namespace Caffe

/-- A batch of the prefetching data layer: a data blob and a label blob
(Batch in data_layers.hpp; its two `Blob` members are modelled by the
flat contents of their cpu buffers). -/
structure Batch where
  data : List Int
  label : List Int
deriving DecidableEq, Repr

/-- The state of `BasePrefetchingDataLayer` that `Forward_cpu` and
`InternalThreadEntry` touch: the two blocking queues `free_` and `full_`
(front of the list = front of the queue), the two top blobs of the
consumer, and `output_labels_`. -/
structure DataLayerState where
  free : List Batch
  full : List Batch
  top0 : List Int
  top1 : List Int
  outputLabels : Bool
deriving DecidableEq, Repr

/-- Embedding of `BaseDataLayer::LayerSetUp` (base_data_layer.cpp, lines
17-23): the assignment of `output_labels_` from the size of the `top`
blob vector. `if (top.size() == 1) output_labels_ = false; else
output_labels_ = true;`. -/
def LayerSetUp_outputLabels (topSize : Nat) : Bool :=
  if topSize = 1 then false else true

/-- Embedding of `BasePrefetchingDataLayer::CreatePrefetchThread`
(base_data_layer.cpp, lines 87-92): `CHECK(StartInternalThread()) <<
"Thread execution failed";`. The boolean argument is the return value of
`StartInternalThread`; a failed CHECK is a fatal error carrying the
message. -/
def CreatePrefetchThread (startOk : Bool) : Except String Unit :=
  if startOk then Except.ok () else Except.error "Thread execution failed"

/-- Embedding of `BasePrefetchingDataLayer::JoinPrefetchThread`
(base_data_layer.cpp, lines 94-97): `CHECK(WaitForInternalThreadToExit())
<< "Thread joining failed";`. -/
def JoinPrefetchThread (joinOk : Bool) : Except String Unit :=
  if joinOk then Except.ok () else Except.error "Thread joining failed"

/-- Outcome of one pass through the prefetch thread's loop body: either
the loop continues with a new state, or it is blocked on an empty `free_`
queue, or it stops (leaves the loop). The source loop (`for(;;)`) has no
leave-the-loop branch; the `stop` constructor is present exactly so that
its absence from the body can be stated. -/
inductive LoopStep where
  | cont (s : DataLayerState)
  | blocked
  | stop
deriving DecidableEq, Repr

/-- Embedding of the loop body of
`BasePrefetchingDataLayer::InternalThreadEntry` (base_data_layer.cpp,
lines 113-122): `Batch* batch = free_.pop(); load_batch(batch);
full_.push(batch);`. `load` abstracts `load_batch` (filling a batch from
the data source; the device-side `async_gpu_push` staging does not change
queue contents). `free_.pop()` blocks when the queue is empty. -/
def InternalThreadEntry_body (load : Batch → Batch) (s : DataLayerState) :
    LoopStep :=
  match s.free with
  | [] => LoopStep.blocked
  | b :: rest =>
      LoopStep.cont { s with free := rest, full := s.full ++ [load b] }

/-- Embedding of `BasePrefetchingDataLayer::Forward_cpu`
(base_data_layer.cpp, lines 125-138): pop one batch from `full_`
(blocking if empty, modelled as `none`), copy its data into `top[0]`,
copy its label into `top[1]` exactly when `output_labels_`, and push the
same batch onto `free_`. -/
def Forward_cpu (s : DataLayerState) : Option DataLayerState :=
  match s.full with
  | [] => none
  | b :: rest =>
      some { s with
              full := rest
              top0 := b.data
              top1 := if s.outputLabels then b.label else s.top1
              free := s.free ++ [b] }

end Caffe

namespace Caffe

/-- A flat gradient contribution, given element-wise by index. -/
def Grad : Type := Nat → Int

/-- Element-wise accumulation of one incoming gradient buffer into an
accumulator buffer (the `diff_ += parent_grads_` bulk add of the reduce
phase). -/
def accumulateInto (acc g : Grad) : Grad := fun i => acc i + g i

/-- The synchronization tree for one iteration of the reduce phase: each
node is a worker holding its device's fixed local flat gradient
contribution, with its direct children listed in the order in which they
report on the worker's blocking handoff queue. -/
inductive GTree where
  | node (localGrad : Grad) (children : List GTree)

/-- Modelled from the spec: the reduce phase of
`P2PSync::before_iteration` (declared at parallel.hpp line 100; body in
parallel.cpp, absent from the excerpt). Per section 4.3, a worker pops
each reporting child exactly once from its handoff queue `queue_` and
adds the child's combined gradient element-wise into its own gradient
buffer; a child's combined gradient is produced the same way below it.
The value at the root is the gradient the root's optimizer step runs
against. -/
def combinedGrad : GTree → Grad
  | .node l cs =>
      (cs.attach.map fun x => combinedGrad x.1).foldl accumulateInto l
decreasing_by
  have := List.sizeOf_lt_of_mem x.2
  simp only [GTree.node.sizeOf_spec]
  omega

/-- All local gradient contributions of the devices in a synchronization
tree, each device listed exactly once. -/
def allLocals : GTree → List Grad
  | .node l cs => l :: (cs.attach.map fun x => allLocals x.1).flatten
decreasing_by
  have := List.sizeOf_lt_of_mem x.2
  simp only [GTree.node.sizeOf_spec]
  omega

mutual
/-- Two synchronization trees describe the same devices with the same
local gradients, differing only in the order in which children report to
each worker: at each node the children lists are related element-wise by
reordering and then permuted. -/
inductive Reorder : GTree → GTree → Prop where
  | node (l : Grad) (cs ds es : List GTree) :
      ReorderList cs ds → ds.Perm es → Reorder (.node l cs) (.node l es)

/-- Element-wise lifting of `Reorder` to children lists. -/
inductive ReorderList : List GTree → List GTree → Prop where
  | nil : ReorderList [] []
  | cons {t u : GTree} {ts us : List GTree} :
      Reorder t u → ReorderList ts us → ReorderList (t :: ts) (u :: us)
end

/-- Induction principle for `GTree` with a hypothesis over all members of
the children list. -/
theorem GTree.memInduction (motive : GTree → Prop)
    (h : ∀ (l : Grad) (cs : List GTree),
      (∀ t ∈ cs, motive t) → motive (.node l cs)) :
    ∀ t, motive t
  | .node l cs => h l cs fun t _tmem => GTree.memInduction motive h t
decreasing_by
  have := List.sizeOf_lt_of_mem _tmem
  simp only [GTree.node.sizeOf_spec]
  omega

theorem foldl_accumulateInto (gs : List Grad) (l : Grad) (i : Nat) :
    gs.foldl accumulateInto l i = l i + (gs.map fun g => g i).sum := by
  induction gs generalizing l with
  | nil => simp
  | cons g gs ih =>
      simp only [List.foldl_cons, List.map_cons, List.sum_cons, ih]
      simp [accumulateInto]
      ring

theorem combinedGrad_node (l : Grad) (cs : List GTree) (i : Nat) :
    combinedGrad (.node l cs) i
      = l i + (cs.map fun t => combinedGrad t i).sum := by
  rw [combinedGrad]
  rw [foldl_accumulateInto]
  congr 1
  rw [List.map_map]
  have : cs.attach.map ((fun g => g i) ∘ fun x => combinedGrad x.1)
      = cs.attach.map fun x => combinedGrad x.1 i := rfl
  rw [this]
  rw [← List.attach_map_val cs fun t => combinedGrad t i]

theorem allLocals_node (l : Grad) (cs : List GTree) :
    allLocals (.node l cs) = l :: (cs.map allLocals).flatten := by
  rw [allLocals]
  congr 1
  congr 1
  rw [← List.attach_map_val cs allLocals]

theorem combinedGrad_eq_sum_allLocals (t : GTree) (i : Nat) :
    combinedGrad t i = ((allLocals t).map fun g => g i).sum := by
  induction t using GTree.memInduction with
  | h l cs ih =>
      rw [combinedGrad_node, allLocals_node]
      have hmap : (cs.map fun t => combinedGrad t i)
          = cs.map fun t => ((allLocals t).map fun g => g i).sum :=
        List.map_congr_left fun t ht => ih t ht
      rw [hmap]
      simp [List.map_flatten, List.sum_flatten, List.map_map,
        Function.comp_def]

theorem reorderList_map : ∀ {cs ds : List GTree}, ReorderList cs ds →
    (∀ t ∈ cs, ∀ u, Reorder t u → ∀ i, combinedGrad t i = combinedGrad u i) →
    ∀ i, (cs.map fun t => combinedGrad t i)
          = ds.map fun t => combinedGrad t i := by
  intro cs
  induction cs with
  | nil =>
      intro ds h _ i
      cases h
      rfl
  | cons t ts ih =>
      intro ds h hall i
      cases h with
      | cons hr hrl =>
          simp only [List.map_cons]
          congr 1
          · exact hall t (List.mem_cons_self t ts) _ hr i
          · exact ih hrl
              (fun v hv u hu j => hall v (List.mem_cons_of_mem t hv) u hu j) i

theorem reorder_combinedGrad :
    ∀ t u, Reorder t u → ∀ i, combinedGrad t i = combinedGrad u i := by
  intro t
  induction t using GTree.memInduction with
  | h l cs ih =>
      intro u hr i
      cases hr with
      | node _ _ ds es hrl hperm =>
          rw [combinedGrad_node, combinedGrad_node]
          congr 1
          have h1 : (cs.map fun t => combinedGrad t i)
              = ds.map fun t => combinedGrad t i :=
            reorderList_map hrl (fun v hv u hu j => ih v hv u hu j) i
          have h2 : ((ds.map fun t => combinedGrad t i).Perm
              (es.map fun t => combinedGrad t i)) :=
            hperm.map _
          rw [h1, h2.sum_eq]

theorem compute_unfold {ds : List Int} (h : ¬ ds.length ≤ 1) :
    DevicePair.compute ds
      = (pairLevel ds).1 ++ DevicePair.compute (pairLevel ds).2 := by
  rw [DevicePair.compute]
  simp [h]

theorem compute_nil_of_le {ds : List Int} (h : ds.length ≤ 1) :
    DevicePair.compute ds = [] := by
  rw [DevicePair.compute]
  simp [h]

theorem compute_length (ds : List Int) :
    (DevicePair.compute ds).length = ds.length - 1 := by
  induction ds using DevicePair.compute.induct with
  | case1 ds h =>
      rw [compute_nil_of_le h]
      simp
      omega
  | case2 ds h ih =>
      rw [compute_unfold h]
      simp only [List.length_append, pairLevel_fst_length, ih,
        pairLevel_snd_length]
      omega

theorem pairLevel_perm (ds : List Int) :
    (((pairLevel ds).1.map fun pr => pr.device) ++ (pairLevel ds).2).Perm
      ds := by
  induction ds using pairLevel.induct with
  | case1 => simp [pairLevel]
  | case2 d => simp [pairLevel]
  | case3 a b rest ih =>
      simp only [pairLevel, List.map_cons, List.cons_append]
      have h1 : (((pairLevel rest).1.map fun pr => pr.device)
            ++ a :: (pairLevel rest).2).Perm
          (a :: (((pairLevel rest).1.map fun pr => pr.device)
            ++ (pairLevel rest).2)) := List.perm_middle
      refine (h1.cons b).trans ?_
      refine (List.Perm.swap a b _).trans ?_
      exact (ih.cons b).cons a

theorem pairLevel_snd_head (a : Int) (l : List Int) :
    ((pairLevel (a :: l)).2).head?.getD 0 = a := by
  cases l <;> rfl

theorem pairLevel_snd_cons (a : Int) (l : List Int) :
    ∃ s, (pairLevel (a :: l)).2 = a :: s := by
  cases l with
  | nil => exact ⟨[], rfl⟩
  | cons b rest => exact ⟨(pairLevel rest).2, rfl⟩

theorem pairLevel_cover (ds : List Int) :
    ∀ d ∈ ds, d ∈ (pairLevel ds).2 ∨
      ∃ p, (DevicePair.mk p d) ∈ (pairLevel ds).1 ∧ p ∈ (pairLevel ds).2 := by
  induction ds using pairLevel.induct with
  | case1 =>
      intro d hd
      cases hd
  | case2 x =>
      intro d hd
      left
      simpa [pairLevel] using hd
  | case3 a b rest ih =>
      intro d hd
      simp only [pairLevel]
      rcases List.mem_cons.mp hd with h | h
      · subst h
        left
        exact List.mem_cons_self _ _
      rcases List.mem_cons.mp h with h2 | h2
      · subst h2
        right
        exact ⟨a, List.mem_cons_self _ _, List.mem_cons_self _ _⟩
      · rcases ih d h2 with hin | ⟨p, hp1, hp2⟩
        · left
          exact List.mem_cons_of_mem _ hin
        · right
          exact ⟨p, List.mem_cons_of_mem _ hp1, List.mem_cons_of_mem _ hp2⟩

theorem reachesRoot_mono {pairs pairsB : List DevicePair} {r d : Int}
    (hsub : pairs ⊆ pairsB) (h : ReachesRoot pairs r d) :
    ReachesRoot pairsB r d := by
  induction h with
  | refl => exact ReachesRoot.refl
  | step hp hmem ih => exact ReachesRoot.step ih (hsub hmem)

theorem compute_children_perm (ds : List Int) :
    ((DevicePair.compute ds).map fun pr => pr.device).Perm ds.tail := by
  induction ds using DevicePair.compute.induct with
  | case1 ds h =>
      rw [compute_nil_of_le h]
      have htail : ds.tail = [] := by
        cases ds with
        | nil => rfl
        | cons x l =>
            simp only [List.length_cons] at h
            have hl : l.length = 0 := by omega
            simpa using List.eq_nil_of_length_eq_zero hl
      rw [htail]
      rfl
  | case2 ds h ih =>
      rw [compute_unfold h]
      obtain ⟨a, l, rfl⟩ : ∃ a l, ds = a :: l := by
        cases ds with
        | nil => simp at h
        | cons a l => exact ⟨a, l, rfl⟩
      obtain ⟨s, hs⟩ := pairLevel_snd_cons a l
      rw [List.map_append]
      rw [hs] at ih
      have hperm := pairLevel_perm (a :: l)
      rw [hs] at hperm
      have h1 : ((((pairLevel (a :: l)).1.map fun pr => pr.device))
            ++ a :: s).Perm
          (a :: (((pairLevel (a :: l)).1.map fun pr => pr.device) ++ s)) :=
        List.perm_middle
      have h2 : (((pairLevel (a :: l)).1.map fun pr => pr.device) ++ s).Perm
          l := (h1.symm.trans hperm).cons_inv
      rw [hs]
      simp only [List.tail_cons] at ih ⊢
      exact (List.Perm.append_left _ ih).trans h2

theorem compute_reaches (ds : List Int) :
    ∀ d ∈ ds, ReachesRoot (DevicePair.compute ds) (ds.head?.getD 0) d := by
  induction ds using DevicePair.compute.induct with
  | case1 ds h =>
      intro d hd
      cases ds with
      | nil => cases hd
      | cons a l =>
          simp only [List.length_cons] at h
          have hl : l = [] := List.eq_nil_of_length_eq_zero (by omega)
          subst hl
          have hda : d = a := by simpa using hd
          subst hda
          exact ReachesRoot.refl
  | case2 ds h ih =>
      intro d hd
      obtain ⟨a, l, rfl⟩ : ∃ a l, ds = a :: l := by
        cases ds with
        | nil => simp at h
        | cons a l => exact ⟨a, l, rfl⟩
      have hroot : ((pairLevel (a :: l)).2).head?.getD 0 = a :=
        pairLevel_snd_head a l
      have hsub : DevicePair.compute (pairLevel (a :: l)).2
          ⊆ DevicePair.compute (a :: l) := by
        rw [compute_unfold h]
        exact List.subset_append_right _ _
      simp only [List.head?_cons, Option.getD_some]
      rcases pairLevel_cover (a :: l) d hd with hin | ⟨p, hp1, hp2⟩
      · have hr := ih d hin
        rw [hroot] at hr
        exact reachesRoot_mono hsub hr
      · have hrp := ih p hp2
        rw [hroot] at hrp
        refine ReachesRoot.step (reachesRoot_mono hsub hrp) ?_
        rw [compute_unfold h]
        exact List.mem_append_left _ hp1

/-- C1: for every synchronization tree of devices with fixed local flat
gradient contributions, the gradient value the root worker applies its
optimizer step against after the reduce phase of `before_iteration`
completes equals the exact element-wise sum of all devices' local
gradients, with each device's contribution counted exactly once
(`allLocals` lists every device exactly once), and this value is the same
for every order in which children report their gradients (`Reorder`
relates trees that differ only in children arrival order). -/
theorem root_gradient_exact_sum :
    (∀ (t : GTree) (i : Nat),
        combinedGrad t i = ((allLocals t).map fun g => g i).sum)
    ∧ (∀ t u, Reorder t u → ∀ i, combinedGrad t i = combinedGrad u i) :=
  ⟨combinedGrad_eq_sum_allLocals, reorder_combinedGrad⟩

theorem root_gradient_exact_sum_witness :
    combinedGrad
        (.node (fun _ => 2) [.node (fun _ => 3) [], .node (fun _ => 5) []]) 0
      = combinedGrad
        (.node (fun _ => 2)
          [.node (fun _ => 5) [], .node (fun _ => 3) []]) 0 :=
  root_gradient_exact_sum.2 _ _
    (Reorder.node _ _ [.node (fun _ => 3) [], .node (fun _ => 5) []] _
      (ReorderList.cons
        (Reorder.node _ [] [] [] ReorderList.nil (List.Perm.refl []))
        (ReorderList.cons
          (Reorder.node _ [] [] [] ReorderList.nil (List.Perm.refl []))
          ReorderList.nil))
      (List.Perm.swap _ _ [])) 0

/-- C2: immediately after a parent's `finish_iteration` returns, every
direct child's parameter buffer is element-wise equal to the parent's
just-updated parameter buffer, and the child has been signalled so its
blocked `before_iteration` call may resume. -/
theorem finish_iteration_broadcast (pp : Params) (cs : List ChildState) :
    ∀ c ∈ finish_iteration pp cs,
      c.params.data = pp.data ∧ c.signaled = true := by
  intro c hc
  simp only [finish_iteration, List.mem_map] at hc
  obtain ⟨c0, _, rfl⟩ := hc
  exact ⟨rfl, rfl⟩

theorem finish_iteration_broadcast_witness :
    ((⟨⟨2, [7, 7], [5, 6]⟩, true⟩ : ChildState).params.data = [7, 7])
    ∧ (⟨⟨2, [7, 7], [5, 6]⟩, true⟩ : ChildState).signaled = true :=
  finish_iteration_broadcast ⟨2, [7, 7], [3, 4]⟩
    [⟨⟨2, [1, 2], [5, 6]⟩, false⟩] ⟨⟨2, [7, 7], [5, 6]⟩, true⟩ (by decide)

/-- C3: for every ordered device list, `DevicePair.compute` produces
exactly N-1 pairs, the children of the produced pairs are exactly the
devices other than the first (so with distinct devices every non-root
device appears as a child exactly once and the root never does), every
listed device is connected to the root through child-to-parent edges (so
the graph with its N-1 edges is a single connected tree), and a
single-device list yields an empty pair list. -/
theorem compute_single_tree (ds : List Int) :
    (DevicePair.compute ds).length = ds.length - 1
    ∧ ((DevicePair.compute ds).map fun pr => pr.device).Perm ds.tail
    ∧ (∀ d ∈ ds, ReachesRoot (DevicePair.compute ds) (ds.head?.getD 0) d)
    ∧ (∀ d : Int, DevicePair.compute [d] = []) :=
  ⟨compute_length ds, compute_children_perm ds, compute_reaches ds,
    fun _ => compute_nil_of_le (by simp)⟩

theorem compute_single_tree_witness :
    (3 : Int) ∈ ([0, 1, 2, 3] : List Int)
    ∧ ReachesRoot (DevicePair.compute [0, 1, 2, 3])
        (([0, 1, 2, 3] : List Int).head?.getD 0) 3 :=
  ⟨by decide, (compute_single_tree [0, 1, 2, 3]).2.2.1 3 (by decide)⟩

/-- C4: `DevicePair.compute` is deterministic: it is a pure function of
the input device ordering, so two calls on the same ordering denote the
same DevicePair sequence (same pairs, same order). -/
theorem compute_deterministic (ds : List Int) :
    DevicePair.compute ds = DevicePair.compute ds := rfl

/-- C5: constructing a GPUParams replica from the root copies the root's
current parameter values into the new device-resident parameter buffer
and initializes the device-resident gradient buffer to all zeros (every
in-range element, read with default 0, is 0) with the buffer sized by the
construction-time size. -/
theorem gpu_params_fresh_replica (root : Params) (i : Nat) :
    (GPUParams.init root).data = root.data
    ∧ (GPUParams.init root).diff.getD i 0 = 0
    ∧ (GPUParams.init root).diff.length = root.size :=
  ⟨rfl, by simp [GPUParams.init], by simp [GPUParams.init]⟩

/-- C6: the buffer size is fixed at construction (summed from the
per-tensor element counts of the model graph) and no subsequent modelled
operation on Params, GPUParams or the P2PSync protocol changes it:
device-replica construction, gradient accumulation and parameter
broadcast all leave `size` equal to its construction-time value. -/
theorem size_fixed_at_construction :
    (∀ counts : List Nat, (Params.ofCounts counts).size = counts.sum)
    ∧ (∀ root : Params, (GPUParams.init root).size = root.size)
    ∧ (∀ (p : Params) (g : List Int), (accumulateDiff p g).size = p.size)
    ∧ (∀ (pp : Params) (cs : List ChildState),
        ((finish_iteration pp cs).map fun c => c.params.size)
          = cs.map fun c => c.params.size) :=
  ⟨fun _ => rfl, fun _ => rfl, fun _ _ => rfl,
    fun pp cs => by simp [finish_iteration]⟩

/-- C7: every call to `Forward_cpu` removes exactly the front batch from
the full queue (and blocks, modelled as `none`, when none is ready),
copies its data buffer into top[0], copies its label buffer into top[1]
exactly when `output_labels_` is set (top[1] is unchanged otherwise), and
pushes that same batch object onto the back of the free queue. -/
theorem forward_cpu_spec :
    (∀ (b : Batch) (rest free : List Batch) (t0 t1 : List Int) (ol : Bool),
        Forward_cpu ⟨free, b :: rest, t0, t1, ol⟩
          = some ⟨free ++ [b], rest, b.data,
              if ol then b.label else t1, ol⟩)
    ∧ (∀ (free : List Batch) (t0 t1 : List Int) (ol : Bool),
        Forward_cpu ⟨free, [], t0, t1, ol⟩ = none) :=
  ⟨fun _ _ _ _ _ _ => rfl, fun _ _ _ _ => rfl⟩

/-- C8: the prefetch thread's loop body never checks a stop signal: it
never produces the leave-the-loop outcome, and whenever a free batch is
available it unconditionally pops it, loads it, and pushes it onto the
full queue (blocking on an empty free queue otherwise), so the loop never
exits of its own accord. -/
theorem prefetch_loop_never_stops :
    (∀ (load : Batch → Batch) (s : DataLayerState),
        InternalThreadEntry_body load s ≠ LoopStep.stop)
    ∧ (∀ (load : Batch → Batch) (b : Batch) (rest full : List Batch)
        (t0 t1 : List Int) (ol : Bool),
        InternalThreadEntry_body load ⟨b :: rest, full, t0, t1, ol⟩
          = LoopStep.cont ⟨rest, full ++ [load b], t0, t1, ol⟩)
    ∧ (∀ (load : Batch → Batch) (full : List Batch) (t0 t1 : List Int)
        (ol : Bool),
        InternalThreadEntry_body load ⟨[], full, t0, t1, ol⟩
          = LoopStep.blocked) := by
  refine ⟨?_, fun _ _ _ _ _ _ _ => rfl, fun _ _ _ _ _ => rfl⟩
  intro load s
  unfold InternalThreadEntry_body
  cases s.free <;> simp

/-- C9: a failure to start the prefetch thread (StartInternalThread
returning false) or to join it on shutdown (WaitForInternalThreadToExit
returning false) is fatal and surfaced immediately as a failed CHECK with
the corresponding message, while success produces no error; neither
failure is retried or masked. -/
theorem thread_lifecycle_fatal :
    CreatePrefetchThread false = Except.error "Thread execution failed"
    ∧ CreatePrefetchThread true = Except.ok ()
    ∧ JoinPrefetchThread false = Except.error "Thread joining failed"
    ∧ JoinPrefetchThread true = Except.ok () :=
  ⟨rfl, rfl, rfl, rfl⟩

/-- C10: `BaseDataLayer::LayerSetUp` sets `output_labels_` to false if
and only if the top blob vector has exactly one element; for any other
top size, including zero and more than two, it is set to true. -/
theorem output_labels_iff_single_top (n : Nat) :
    (LayerSetUp_outputLabels n = false ↔ n = 1)
    ∧ LayerSetUp_outputLabels 0 = true
    ∧ LayerSetUp_outputLabels 2 = true := by
  refine ⟨?_, rfl, rfl⟩
  by_cases h : n = 1 <;> simp [LayerSetUp_outputLabels, h]

end Caffe

